import Mathlib

/-!
Verification of the clip-export core of `src/server.js` (an express server
that compiles a declarative edit specification into an ffmpeg command).
Strings are modelled as `List Char`; JavaScript numbers as `ℚ` (the values
used by this code are exact in binary-decimal terms, so rationals are a
faithful model); nullable fields as `Option`.
-/

/-- Character list of a string literal (strings are modelled as `List Char`). -/
def chars (s : String) : List Char := s.data

/-- Model of the JavaScript global single-character replacement
`str.replace(/c/g, rep)` used in `src/server.js` lines 247-250 (each
pattern there is a single character). -/
def replStep (c : Char) (rep : List Char) : List Char → List Char
  | [] => []
  | x :: xs => (if x = c then rep else [x]) ++ replStep c rep xs

/-- The drawtext escaping of `src/server.js` lines 246-250:
`t.text.replace(/\\/g,"\\\\").replace(/'/g,"\\'").replace(/:/g,"\\:")` —
backslash to double backslash, then quote to backslash-quote, then colon
to backslash-colon, applied in that order. -/
def escapeText (t : List Char) : List Char :=
  replStep ':' ['\\', ':'] (replStep '\'' ['\\', '\''] (replStep '\\' ['\\', '\\'] t))

/-- Per-character effect of the composed escaping (used to state that the
escaper acts independently on each input character). -/
def escChar (c : Char) : List Char :=
  if c = '\\' then ['\\', '\\']
  else if c = '\'' then ['\\', '\'']
  else if c = ':' then ['\\', ':']
  else [c]

/-- Formalisation of "contains no unescaped backslash, quote or colon":
scanning left to right, a backslash must be followed by one more character
(the pair is an escape), and any bare quote or colon is unescaped. -/
def allEscaped : List Char → Bool
  | [] => true
  | [x] => if x = '\\' then false else !(x = '\'' || x = ':')
  | x :: y :: ys =>
    if x = '\\' then allEscaped ys
    else !(x = '\'' || x = ':') && allEscaped (y :: ys)

/-! ## Numbers and their textual rendering

JavaScript numbers are modelled as rationals. Every numeric value this
server actually renders (integers, halves, tenths, ffmpeg ratios) is exact
both as a double and as a decimal, so `ℚ` with the decimal printers below
matches the JavaScript output on the whole domain exercised here. -/

/-- Truncation toward zero, as both ffmpeg's `trunc()` and the implicit
integer conversion of the JavaScript `%` operator behave. -/
def truncQ (q : ℚ) : ℤ := if q < 0 then ⌈q⌉ else ⌊q⌋

/-- The JavaScript remainder `a % b` (truncated division, sign of the
dividend), as used in `secondsToFFmpeg` (`src/server.js` lines 30-35). -/
def jsMod (a b : ℚ) : ℚ := a - b * (truncQ (a / b) : ℚ)

/-- Decimal digits of a natural number, fuel-based so that the kernel can
evaluate it (the fuel `n + 1` always suffices since `n / 10 < n`). -/
def natCharsF : ℕ → ℕ → List Char
  | 0, _ => []
  | fuel + 1, n =>
    if n < 10 then [Nat.digitChar n]
    else natCharsF fuel (n / 10) ++ [Nat.digitChar (n % 10)]

/-- Decimal rendering of a natural number (`String(n)` for natural `n`). -/
def natChars (n : ℕ) : List Char := natCharsF (n + 1) n

/-- Decimal rendering of an integer (`String(i)`). -/
def intChars (i : ℤ) : List Char :=
  if i < 0 then '-' :: natChars i.natAbs else natChars i.toNat

/-- `String.prototype.padStart(n, c)`: left-pad to length at least `n`. -/
def padLeft (n : ℕ) (c : Char) (l : List Char) : List Char :=
  List.replicate (n - l.length) c ++ l

/-- `q.toFixed(d)` for `q ≥ 0`: round to `d` decimals (half away from
zero) and print with exactly `d` digits after the point. -/
def toFixedPos (d : ℕ) (q : ℚ) : List Char :=
  let n : ℕ := (⌊q * (10 : ℚ) ^ d + 1 / 2⌋).toNat
  if d = 0 then natChars n
  else natChars (n / 10 ^ d) ++ '.' :: padLeft d '0' (natChars (n % 10 ^ d))

/-- `q.toFixed(d)`: JavaScript fixed-point rendering. -/
def toFixedChars (d : ℕ) (q : ℚ) : List Char :=
  if q < 0 then '-' :: toFixedPos d (-q) else toFixedPos d q

/-- Remove trailing zero characters (for the shortest-decimal rendering). -/
def trimTrailingZeros (l : List Char) : List Char :=
  (l.reverse.dropWhile (fun c => c = '0')).reverse

/-- Shortest-decimal rendering of a nonnegative rational whose denominator
divides `10 ^ 6`: integer part, then the fractional digits with trailing
zeros removed. On that domain this agrees with the JavaScript default
number-to-string conversion; every non-integer this server prints (ratio
components, positions, speeds, tempo values) lies in it. -/
def jsNumPos (q : ℚ) : List Char :=
  let i : ℕ := (⌊q⌋).toNat
  let frac : ℚ := q - (i : ℚ)
  if frac = 0 then natChars i
  else natChars i ++ '.' :: trimTrailingZeros (padLeft 6 '0' (natChars (⌊frac * 1000000⌋).toNat))

/-- Template interpolation of a JavaScript number into a string. -/
def jsNumChars (q : ℚ) : List Char :=
  if q < 0 then '-' :: jsNumPos (-q) else jsNumPos q

/-- `secondsToFFmpeg` (`src/server.js` lines 30-35): seconds to
`HH:MM:SS.mmm` — `h = Math.floor(s/3600)`, `m = Math.floor((s%3600)/60)`,
`sec = (s%60).toFixed(3)`, each padded with `padStart`. -/
def secondsToFFmpeg (s : ℚ) : List Char :=
  padLeft 2 '0' (intChars ⌊s / 3600⌋) ++
    ':' :: padLeft 2 '0' (intChars ⌊jsMod s 3600 / 60⌋) ++
    ':' :: padLeft 6 '0' (toFixedChars 3 (jsMod s 60))

/-! ## Small string utilities used by the server -/

/-- The JavaScript `str.split(sep)` for a single-character separator:
always returns at least one (possibly empty) piece. -/
def splitOnChar (sep : Char) : List Char → List (List Char)
  | [] => [[]]
  | c :: rest =>
    match splitOnChar sep rest with
    | [] => [[]]
    | h :: t => if c = sep then [] :: h :: t else (c :: h) :: t

/-- The JavaScript `Number(str)` conversion, on the fragment of inputs this
server feeds it: the empty string converts to `0`, a nonempty digit string
to its decimal value, anything else to NaN (modelled as `none`). The
aspect-ratio components parsed here are always plain digit strings. -/
def jsNumber (s : List Char) : Option ℚ :=
  if s = [] then some 0
  else if s.all (fun c => c.isDigit) then
    some ((s.foldl (fun acc c => acc * 10 + (c.toNat - 48)) 0 : ℕ) : ℚ)
  else none

/-- The JavaScript `str.replace(pat, repl)` for a single-character pattern:
replaces only the first occurrence. -/
def replaceFirstChar (pat : Char) (repl : List Char) : List Char → List Char
  | [] => []
  | c :: rest => if c = pat then repl ++ rest else c :: replaceFirstChar pat repl rest

/-- `path.basename`: the final path segment (after the last slash). -/
def basenameOf (s : List Char) : List Char :=
  (s.reverse.takeWhile (fun c => c ≠ '/')).reverse

/-! ## Data model (`src/server.js` request bodies, shapes from
`src/lib/storage.ts`) -/

/-- A text overlay as read by `buildFFmpegFilters` (lines 236-254): only the
fields the server dereferences are modelled (`id` and `bold` are carried by
the authoring model but never read by the server). Nullable/optional fields
are `Option`. -/
structure TextOverlay where
  text : List Char
  color : Option (List Char)
  fontSize : Option ℚ
  x : Option ℚ
  y : Option ℚ
  startSec : Option ℚ
  endSec : Option ℚ
deriving DecidableEq

/-- The edit specification as read by the export route and
`buildFFmpegFilters`. `cropX/Y/W/H` of the authoring model are never read
by the server and are omitted; `trimStart`/`trimEnd` are carried to state
that the route ignores them. -/
structure Edits where
  aspectRatio : Option (List Char)
  brightness : Option ℚ
  contrast : Option ℚ
  saturation : Option ℚ
  speed : Option ℚ
  textOverlays : List TextOverlay
  trimStart : Option ℚ
  trimEnd : Option ℚ
deriving DecidableEq

/-- The `edits || {}` default of line 141: every field absent. -/
def emptyEdits : Edits :=
  ⟨none, none, none, none, none, [], none, none⟩

/-- A moment/clip: absolute start and end time in seconds. -/
structure Clip where
  startTime : ℚ
  endTime : ℚ
deriving DecidableEq

/-- One entry of the `eq` color filter (lines 221-227), tagged with the raw
delta taken from the edit spec. -/
inductive EqE
  | brightness (v : ℚ)
  | contrast (v : ℚ)
  | saturation (v : ℚ)
deriving DecidableEq

/-- One entry of the visual filter chain assembled by `buildFFmpegFilters`.
Each constructor carries exactly the data interpolated into the
corresponding template string of the source; `serializeVF` below renders
it to that string. `crop` carries the two parsed aspect-ratio components
(`none` models NaN); `setpts` carries `1/speed`; `drawtext` carries the
escaped text and the already-built position/color strings. -/
inductive VFilter
  | crop (rw rh : Option ℚ)
  | eq (es : List EqE)
  | setpts (inv : ℚ)
  | drawtext (txt : List Char) (size : ℚ) (color : List Char)
      (xe ye : List Char) (enable : Option (ℚ × ℚ))
deriving DecidableEq

/-! ## The filter builder (`buildFFmpegFilters`, lines 194-258) -/

/-- First component of `edits.aspectRatio.split(":").map(Number)`. -/
def ratioFst (ar : List Char) : Option ℚ :=
  (((splitOnChar ':' ar).map jsNumber)[0]?).join

/-- Second component of the parsed ratio (`undefined`, like NaN, is `none`). -/
def ratioSnd (ar : List Char) : Option ℚ :=
  (((splitOnChar ':' ar).map jsNumber)[1]?).join

/-- Lines 198-218: a crop entry is pushed iff `aspectRatio` is present,
nonempty (truthy) and not `"original"`. -/
def cropPart (e : Edits) : List VFilter :=
  match e.aspectRatio with
  | none => []
  | some ar =>
    if ar = [] ∨ ar = chars "original" then []
    else [VFilter.crop (ratioFst ar) (ratioSnd ar)]

/-- Line 222-223: the brightness entry, present iff the field is present
(`!= null`) and nonzero. -/
def brightnessEntry (e : Edits) : List EqE :=
  match e.brightness with
  | some b => if b ≠ 0 then [EqE.brightness b] else []
  | none => []

/-- Lines 224-225: the contrast entry, present iff present and nonzero. -/
def contrastEntry (e : Edits) : List EqE :=
  match e.contrast with
  | some c => if c ≠ 0 then [EqE.contrast c] else []
  | none => []

/-- Lines 226-227: the saturation entry, present iff present and nonzero. -/
def saturationEntry (e : Edits) : List EqE :=
  match e.saturation with
  | some v => if v ≠ 0 then [EqE.saturation v] else []
  | none => []

/-- Lines 221-227: the `eq` entries in source order brightness, contrast,
saturation. -/
def eqEntries (e : Edits) : List EqE :=
  brightnessEntry e ++ contrastEntry e ++ saturationEntry e

/-- Line 228: the `eq` filter is pushed iff some entry exists. -/
def eqPart (e : Edits) : List VFilter :=
  if eqEntries e = [] then [] else [VFilter.eq (eqEntries e)]

/-- Lines 231-233: `setpts` is pushed iff `edits.speed` is truthy (present
and nonzero) and not `1`; it carries the factor `1/speed`. -/
def setptsPart (e : Edits) : List VFilter :=
  match e.speed with
  | some sp => if sp ≠ 0 ∧ sp ≠ 1 then [VFilter.setpts (1 / sp)] else []
  | none => []

/-- Line 238: `(t.color || "#FFFFFF").replace("#", "0x")`. -/
def ovColor (t : TextOverlay) : List Char :=
  replaceFirstChar '#' (chars "0x")
    (match t.color with
     | some c => if c = [] then chars "#FFFFFF" else c
     | none => chars "#FFFFFF")

/-- Line 239: `t.fontSize || 36` (zero and absent are both falsy). -/
def ovSize (t : TextOverlay) : ℚ :=
  match t.fontSize with
  | some v => if v = 0 then 36 else v
  | none => 36

/-- Line 240: explicit x gives `w*${t.x}`; only null/undefined gives the
horizontal-centering expression. -/
def ovX (t : TextOverlay) : List Char :=
  match t.x with
  | some v => chars "w*" ++ jsNumChars v
  | none => chars "(w-text_w)/2"

/-- Line 241: explicit y gives `h*${t.y}`; only null/undefined gives the
85%-height default. -/
def ovY (t : TextOverlay) : List Char :=
  match t.y with
  | some v => chars "h*" ++ jsNumChars v
  | none => chars "h*0.85"

/-- Lines 242-245: an enable window only when both bounds are present. -/
def ovEnable (t : TextOverlay) : Option (ℚ × ℚ) :=
  match t.startSec, t.endSec with
  | some a, some b => some (a, b)
  | _, _ => none

/-- Lines 246-253: one drawtext entry per overlay, with the escaped text. -/
def drawtextOf (t : TextOverlay) : VFilter :=
  VFilter.drawtext (escapeText t.text) (ovSize t) (ovColor t) (ovX t) (ovY t) (ovEnable t)

/-- Lines 236-255: overlays are compiled in authoring order. -/
def drawtextPart (e : Edits) : List VFilter :=
  e.textOverlays.map drawtextOf

/-- `buildFFmpegFilters` (lines 194-258): the four components pushed onto
the `filters` array in source order crop, eq, setpts, drawtext. -/
def buildFFmpegFilters (e : Edits) : List VFilter :=
  cropPart e ++ eqPart e ++ setptsPart e ++ drawtextPart e

/-! ## Rendering of filters and the export command (lines 146-160) -/

/-- Interpolation of a parsed ratio component into the crop template
(`none`, i.e. NaN or undefined, renders as the engine-breaking `NaN`). -/
def optNumChars : Option ℚ → List Char
  | some q => jsNumChars q
  | none => chars "NaN"

/-- Rendering of one `eq` entry: brightness is interpolated raw; contrast
and saturation as `(1 + delta).toFixed(4)` (lines 222-227). -/
def serializeEq : EqE → List Char
  | EqE.brightness v => chars "brightness=" ++ jsNumChars v
  | EqE.contrast v => chars "contrast=" ++ toFixedChars 4 (1 + v)
  | EqE.saturation v => chars "saturation=" ++ toFixedChars 4 (1 + v)

/-- Rendering of one filter entry to the exact template string of the
source (`\\,` in the JavaScript source is the two characters backslash
comma in the string value, reproduced here). -/
def serializeVF : VFilter → List Char
  | VFilter.crop rw rh =>
    chars "crop=if(gt(iw/ih\\," ++ optNumChars rw ++ '/' :: optNumChars rh ++
      chars ")\\,trunc(ih*" ++ optNumChars rw ++ '/' :: optNumChars rh ++
      chars "/2)*2\\,iw):if(gt(iw/ih\\," ++ optNumChars rw ++ '/' :: optNumChars rh ++
      chars ")\\,ih\\,trunc(iw*" ++ optNumChars rh ++ '/' :: optNumChars rw ++
      chars "/2)*2):(iw-out_w)/2:(ih-out_h)/2"
  | VFilter.eq es => chars "eq=" ++ List.intercalate [':'] (es.map serializeEq)
  | VFilter.setpts inv => chars "setpts=" ++ toFixedChars 6 inv ++ chars "*PTS"
  | VFilter.drawtext txt size color xe ye en =>
    chars "drawtext=text='" ++ txt ++ chars "':fontsize=" ++ jsNumChars size ++
      chars ":fontcolor=" ++ color ++ chars ":x=" ++ xe ++ chars ":y=" ++ ye ++
      (match en with
       | some (a, b) =>
         chars ":enable='between(t," ++ jsNumChars a ++ ',' :: jsNumChars b ++ chars ")'"
       | none => [])

/-- Kind rank of a filter entry, in the fixed assembly order of the
builder: crop 0, color 1, speed 2, text overlay 3. -/
def rankF : VFilter → ℕ
  | VFilter.crop _ _ => 0
  | VFilter.eq _ => 1
  | VFilter.setpts _ => 2
  | VFilter.drawtext _ _ _ _ _ _ => 3

/-- Whether an entry is a drawtext (text overlay) entry. -/
def isDrawtext : VFilter → Bool
  | VFilter.drawtext _ _ _ _ _ _ => true
  | _ => false

/-- Whether an entry is a setpts (video speed) entry. -/
def isSetpts : VFilter → Bool
  | VFilter.setpts _ => true
  | _ => false

/-- Whether an entry is a crop entry. -/
def isCropF : VFilter → Bool
  | VFilter.crop _ _ => true
  | _ => false

/-- Line 142: `edits?.speed || 1` (absent or zero falls back to 1). -/
def effSpeed (e : Edits) : ℚ :=
  match e.speed with
  | some v => if v = 0 then 1 else v
  | none => 1

/-- Line 153: the audio tempo argument — present iff the effective speed
is not 1, carrying `Math.min(Math.max(speed, 0.5), 2)`. -/
def afArg (e : Edits) : Option ℚ :=
  if effSpeed e ≠ 1 then some (min (max (effSpeed e) (1 / 2)) 2) else none

/-- Double-quote wrapping used for interpolated paths and filter chains. -/
def quoteWrap (s : List Char) : List Char := '"' :: s ++ ['"']

/-- Line 151: the `-vf` piece — the empty string when no visual filter was
built, otherwise the chain joined with commas inside double quotes. -/
def vfPiece (e : Edits) : List Char :=
  if buildFFmpegFilters e = [] then []
  else chars "-vf " ++ quoteWrap (List.intercalate [','] ((buildFFmpegFilters e).map serializeVF))

/-- Line 153: the `-af` piece (empty when the effective speed is 1). -/
def afPiece (e : Edits) : List Char :=
  match afArg e with
  | some v => chars "-af " ++ quoteWrap (chars "atempo=" ++ jsNumChars v)
  | none => []

/-- Lines 146-158: the command array before `.filter(Boolean)`. -/
def exportCmdArr (src out : List Char) (c : Clip) (e : Edits) : List (List Char) :=
  [chars "ffmpeg -y",
   chars "-ss " ++ secondsToFFmpeg c.startTime,
   chars "-i " ++ quoteWrap src,
   chars "-t " ++ secondsToFFmpeg (c.endTime - c.startTime),
   vfPiece e,
   afPiece e,
   chars "-c:v libx264 -preset fast -crf 22",
   chars "-c:a aac -b:a 128k",
   chars "-movflags +faststart",
   quoteWrap out]

/-- Line 159: `.filter(Boolean)` — empty (falsy) pieces are dropped. -/
def exportCmdPieces (src out : List Char) (c : Clip) (e : Edits) : List (List Char) :=
  (exportCmdArr src out c e).filter (fun p => !p.isEmpty)

/-- Line 160: `.join(" ")` — the single command string handed to the
shell-interpreting `exec` (`execAsync(cmd)`, line 163). -/
def exportCmd (src out : List Char) (c : Clip) (e : Edits) : List Char :=
  List.intercalate [' '] (exportCmdPieces src out c e)

/-- The error outcomes the route can produce before spawning (lines
125-135): missing body parameters, or a source file that does not resolve. -/
inductive ExportError
  | missingParams
  | sourceNotFound
deriving DecidableEq

/-- The `/api/export-clip` route (lines 122-163) up to the spawn of the
external process: body validation, source resolution against the set of
files present in the input directory (`existing` models the filesystem;
`path.join(TEMP_DIR, path.basename(sourceFile))` is modelled by the bare
basename), then construction of the command that is spawned. No shape or
range validation of `edits` is performed anywhere on this path. -/
def exportClip (existing : List (List Char)) (outName : List Char)
    (sourceFile : Option (List Char)) (clip : Option Clip)
    (edits : Option Edits) : Except ExportError (List Char) :=
  match sourceFile, clip with
  | some src, some c =>
    if src = [] then Except.error ExportError.missingParams
    else if basenameOf src ∈ existing then
      Except.ok (exportCmd (basenameOf src) outName c (edits.getD emptyEdits))
    else Except.error ExportError.sourceNotFound
  | _, _ => Except.error ExportError.missingParams

/-! ## Runtime semantics of the emitted crop expression

The crop entry's width/height are ffmpeg expressions evaluated by the
engine once the frame size `iw × ih` is known. The functions below are the
arithmetic meaning of those exact expressions
(`if(gt(iw/ih,rw/rh), trunc(ih*rw/rh/2)*2, iw)` and its height
counterpart, with `trunc` truncating toward zero); the offsets are
`(iw-out_w)/2` and `(ih-out_h)/2`. -/

/-- Value of the emitted crop-width expression at frame `iw × ih`. -/
def evalCropW (rw rh iw ih : ℚ) : ℚ :=
  if rw / rh < iw / ih then ((truncQ (ih * rw / rh / 2) : ℤ) : ℚ) * 2 else iw

/-- Value of the emitted crop-height expression at frame `iw × ih`. -/
def evalCropH (rw rh iw ih : ℚ) : ℚ :=
  if rw / rh < iw / ih then ih else ((truncQ (iw * rh / rw / 2) : ℤ) : ℚ) * 2

/-- Value of the emitted x-offset expression `(iw-out_w)/2`. -/
def evalCropX (rw rh iw ih : ℚ) : ℚ := (iw - evalCropW rw rh iw ih) / 2

/-- Value of the emitted y-offset expression `(ih-out_h)/2`. -/
def evalCropY (rw rh iw ih : ℚ) : ℚ := (ih - evalCropH rw rh iw ih) / 2

/-- Modelled from the spec: `round_even`, the spec's rounding of a crop
dimension "to even integers". The spec fixes no direction; the direction
realised by the code's `trunc(x/2)*2` on nonnegative input is downward,
so `round_even` is the largest even integer not exceeding the input. -/
def evenRound (q : ℚ) : ℚ := ((⌊q / 2⌋ : ℤ) : ℚ) * 2

/-- The four supported target ratios of the spec, as pairs `(rw, rh)`. -/
def ratioList : List (ℚ × ℚ) := [(9, 16), (16, 9), (1, 1), (4, 3)]

/-- The spec's `HH:MM:SS.mmm` time format, written from the spec's words
for the refinement claim about the Time Range Translator: hour, minute and
second fields zero-padded to at least two integer digits, milliseconds to
three. The input is a millisecond count. -/
def hmsFormat (ms : ℕ) : List Char :=
  padLeft 2 '0' (natChars (ms / 3600000)) ++
    ':' :: padLeft 2 '0' (natChars (ms % 3600000 / 60000)) ++
    ':' :: padLeft 6 '0'
      (natChars (ms % 60000 / 1000) ++ '.' :: padLeft 3 '0' (natChars (ms % 1000)))

/-! ## Theorems -/

theorem replStep_append (c : Char) (rep xs ys : List Char) :
    replStep c rep (xs ++ ys) = replStep c rep xs ++ replStep c rep ys := by
  induction xs with
  | nil => rfl
  | cons x xs ih => simp [replStep, ih, List.append_assoc]

theorem escapeText_cons (x : Char) (t : List Char) :
    escapeText (x :: t) = escChar x ++ escapeText t := by
  by_cases h1 : x = '\\'
  · subst h1; simp [escapeText, replStep, replStep_append, escChar]
  · by_cases h2 : x = '\''
    · subst h2; simp [escapeText, replStep, replStep_append, escChar]
    · by_cases h3 : x = ':'
      · subst h3; simp [escapeText, replStep, replStep_append, escChar]
      · simp [escapeText, replStep, replStep_append, escChar, h1, h2, h3]

theorem allEscaped_escChar_append (c : Char) (r : List Char) :
    allEscaped (escChar c ++ r) = allEscaped r := by
  by_cases h1 : c = '\\'
  · subst h1; simp [escChar, allEscaped]
  · by_cases h2 : c = '\''
    · subst h2; simp [escChar, allEscaped]
    · by_cases h3 : c = ':'
      · subst h3; simp [escChar, allEscaped]
      · cases r with
        | nil => simp [escChar, allEscaped, h1, h2, h3]
        | cons y ys => simp [escChar, allEscaped, h1, h2, h3]

/-- C1: the escaping function acts character by character — every backslash
becomes a double backslash, every quote a backslash-quote, every colon a
backslash-colon — and for every input string its output contains no
unescaped backslash, single quote or colon. -/
theorem c1_escaping_closes_special_chars (t : List Char) :
    escapeText t = (t.map escChar).flatten ∧ allEscaped (escapeText t) = true := by
  constructor
  · induction t with
    | nil => rfl
    | cons x xs ih => rw [escapeText_cons, ih]; simp
  · induction t with
    | nil => rfl
    | cons x xs ih => rw [escapeText_cons, allEscaped_escChar_append]; exact ih

/-- Floor of a quotient of natural casts is natural division. -/
theorem floor_natCast_div (a k : ℕ) (hk : 0 < k) :
    ⌊(a : ℚ) / (k : ℚ)⌋ = ((a / k : ℕ) : ℤ) := by
  have hk' : (0 : ℚ) < (k : ℚ) := by exact_mod_cast hk
  have h1 : ((((a / k : ℕ) : ℤ) : ℚ)) ≤ (a : ℚ) / (k : ℚ) := by
    rw [le_div_iff₀ hk']
    exact_mod_cast Nat.div_mul_le_self a k
  have h3 : a < (a / k + 1) * k := by
    have hq := Nat.div_add_mod a k
    have hr := Nat.mod_lt a hk
    nlinarith
  have h2 : (a : ℚ) / (k : ℚ) < (((a / k : ℕ) : ℤ) : ℚ) + 1 := by
    rw [div_lt_iff₀ hk']
    exact_mod_cast h3
  rw [Int.floor_eq_iff]
  exact ⟨h1, h2⟩

/-- The JavaScript remainder of a millisecond-precision nonnegative value
by a positive natural, in exact arithmetic. -/
theorem jsMod_natCast_div (ms k : ℕ) (hk : 0 < k) :
    jsMod ((ms : ℚ) / 1000) (k : ℚ) = ((ms % (1000 * k) : ℕ) : ℚ) / 1000 := by
  have hk0 : 0 < 1000 * k := by omega
  have hdiv : (ms : ℚ) / 1000 / (k : ℚ) = (ms : ℚ) / ((1000 * k : ℕ) : ℚ) := by
    push_cast
    rw [div_div]
  have hfl : ⌊(ms : ℚ) / ((1000 * k : ℕ) : ℚ)⌋ = ((ms / (1000 * k) : ℕ) : ℤ) :=
    floor_natCast_div ms (1000 * k) hk0
  have hnn : (0 : ℚ) ≤ (ms : ℚ) / 1000 / (k : ℚ) := by positivity
  have hcast : ((1000 * k : ℕ) : ℚ) * ((ms / (1000 * k) : ℕ) : ℚ) +
      ((ms % (1000 * k) : ℕ) : ℚ) = (ms : ℚ) := by
    exact_mod_cast congrArg (fun n : ℕ => (n : ℚ)) (Nat.div_add_mod ms (1000 * k))
  rw [jsMod, truncQ, if_neg (not_lt.mpr hnn), hdiv, hfl, Int.cast_natCast]
  push_cast at hcast
  field_simp
  linarith [hcast]

/-- Integer rendering of a natural cast is the natural rendering. -/
theorem intChars_natCast (n : ℕ) : intChars ((n : ℕ) : ℤ) = natChars n := by
  rw [intChars, if_neg (by omega : ¬ (((n : ℕ) : ℤ) < 0))]
  simp

/-- `toFixed(3)` of a millisecond-precision nonnegative value. -/
theorem toFixed3_ms (B : ℕ) :
    toFixedChars 3 ((B : ℚ) / 1000) =
      natChars (B / 1000) ++ '.' :: padLeft 3 '0' (natChars (B % 1000)) := by
  rw [toFixedChars, if_neg (not_lt.mpr (by positivity))]
  have harg : (B : ℚ) / 1000 * (10 : ℚ) ^ 3 + 1 / 2 = (B : ℚ) + 1 / 2 := by
    have h10 : ((10 : ℚ) ^ 3) = 1000 := by norm_num
    rw [h10, div_mul_cancel₀ _ (by norm_num : (1000 : ℚ) ≠ 0)]
  have hfl : ⌊(B : ℚ) + 1 / 2⌋ = ((B : ℕ) : ℤ) := by
    rw [Int.floor_eq_iff]
    constructor
    · push_cast
      linarith
    · push_cast
      linarith
  simp only [toFixedPos, harg, hfl, Int.toNat_natCast, if_neg (by norm_num : ¬ (3 = 0))]
  norm_num

/-- `secondsToFFmpeg` on a millisecond-precision nonnegative input:
hours, minutes, seconds and milliseconds are exactly the natural-number
fields of the input, each zero-padded (`HH:MM:SS.mmm`). -/
theorem secondsToFFmpeg_ms (ms : ℕ) :
    secondsToFFmpeg ((ms : ℚ) / 1000) = hmsFormat ms := by
  rw [hmsFormat]
  have e1 : (ms : ℚ) / 1000 / 3600 = (ms : ℚ) / ((3600000 : ℕ) : ℚ) := by
    push_cast
    rw [div_div]
    norm_num
  have h1 : ⌊(ms : ℚ) / 1000 / 3600⌋ = ((ms / 3600000 : ℕ) : ℤ) := by
    rw [e1]
    exact floor_natCast_div ms 3600000 (by norm_num)
  have h2 : jsMod ((ms : ℚ) / 1000) 3600 = ((ms % 3600000 : ℕ) : ℚ) / 1000 := by
    have := jsMod_natCast_div ms 3600 (by norm_num)
    norm_num at this ⊢
    exact this
  have e2 : ((ms % 3600000 : ℕ) : ℚ) / 1000 / 60 =
      ((ms % 3600000 : ℕ) : ℚ) / ((60000 : ℕ) : ℚ) := by
    push_cast
    rw [div_div]
    norm_num
  have h3 : ⌊((ms % 3600000 : ℕ) : ℚ) / 1000 / 60⌋ =
      ((ms % 3600000 / 60000 : ℕ) : ℤ) := by
    rw [e2]
    exact floor_natCast_div (ms % 3600000) 60000 (by norm_num)
  have h4 : jsMod ((ms : ℚ) / 1000) 60 = ((ms % 60000 : ℕ) : ℚ) / 1000 := by
    have := jsMod_natCast_div ms 60 (by norm_num)
    norm_num at this ⊢
    exact this
  have h5 : ms % 60000 % 1000 = ms % 1000 :=
    Nat.mod_mod_of_dvd ms ⟨60, rfl⟩
  rw [secondsToFFmpeg, h1, intChars_natCast, h2, h3, intChars_natCast, h4, toFixed3_ms, h5]

/-- A nonempty piece of the command array survives `.filter(Boolean)`. -/
theorem mem_pieces_of_mem_arr {src out : List Char} {c : Clip} {e : Edits}
    {p : List Char} (hne : p ≠ []) (hm : p ∈ exportCmdArr src out c e) :
    p ∈ exportCmdPieces src out c e := by
  refine List.mem_filter.mpr ⟨hm, ?_⟩
  simp [List.isEmpty_iff, hne]

/-- C6: for every moment with `startTime < endTime` (at millisecond
precision, written as `sms`/`ems` milliseconds), the export command seeks
to `startTime` and renders for `endTime - startTime`, both formatted as
zero-padded `HH:MM:SS.mmm`; the trim offsets of the edit spec are not
incorporated (the command is invariant under them). -/
theorem c6_time_range_translator (src out : List Char) (e : Edits) (sms ems : ℕ)
    (h : sms < ems) :
    (chars "-ss " ++ hmsFormat sms) ∈
      exportCmdPieces src out ⟨(sms : ℚ) / 1000, (ems : ℚ) / 1000⟩ e ∧
    (chars "-t " ++ hmsFormat (ems - sms)) ∈
      exportCmdPieces src out ⟨(sms : ℚ) / 1000, (ems : ℚ) / 1000⟩ e ∧
    (∀ c : Clip, ∀ t1 t2 t1' t2' : Option ℚ,
      exportCmd src out c { e with trimStart := t1, trimEnd := t2 } =
        exportCmd src out c { e with trimStart := t1', trimEnd := t2' }) := by
  have hdur : (ems : ℚ) / 1000 - (sms : ℚ) / 1000 = ((ems - sms : ℕ) : ℚ) / 1000 := by
    have : ((ems - sms : ℕ) : ℚ) = (ems : ℚ) - (sms : ℚ) := by
      push_cast [Nat.cast_sub (le_of_lt h)]
      ring
    rw [this]
    ring
  refine ⟨?_, ?_, ?_⟩
  · apply mem_pieces_of_mem_arr
    · rw [show chars "-ss " = ['-', 's', 's', ' '] from by decide]
      simp
    · rw [← secondsToFFmpeg_ms]
      simp [exportCmdArr]
  · apply mem_pieces_of_mem_arr
    · rw [show chars "-t " = ['-', 't', ' '] from by decide]
      simp
    · rw [← secondsToFFmpeg_ms]
      simp only [exportCmdArr]
      rw [show (Clip.mk ((sms : ℚ) / 1000) ((ems : ℚ) / 1000)).endTime -
            (Clip.mk ((sms : ℚ) / 1000) ((ems : ℚ) / 1000)).startTime =
            ((ems - sms : ℕ) : ℚ) / 1000 from hdur]
      simp
  · intro c t1 t2 t1' t2'
    rfl

/-- Witness for C6 at the spec's example `{startTime: 45, endTime: 90}`:
seek `00:00:45.000` and duration `00:00:45.000`. -/
theorem c6_time_range_translator_witness :
    hmsFormat 45000 = chars "00:00:45.000" ∧
    chars "-ss 00:00:45.000" ∈
      exportCmdPieces (chars "v.mp4") (chars "o.mp4")
        ⟨(45000 : ℚ) / 1000, (90000 : ℚ) / 1000⟩ emptyEdits ∧
    chars "-t 00:00:45.000" ∈
      exportCmdPieces (chars "v.mp4") (chars "o.mp4")
        ⟨(45000 : ℚ) / 1000, (90000 : ℚ) / 1000⟩ emptyEdits := by
  have h := c6_time_range_translator (chars "v.mp4") (chars "o.mp4") emptyEdits
    45000 90000 (by norm_num)
  refine ⟨by decide, ?_, ?_⟩
  · rw [show chars "-ss 00:00:45.000" = chars "-ss " ++ hmsFormat 45000 from by decide]
    exact h.1
  · rw [show chars "-t 00:00:45.000" = chars "-t " ++ hmsFormat (90000 - 45000) from by decide]
    exact h.2.1

/-- In the wider-than-target branch the computed crop width is an even
integer below `iw`, and the height is the full source height. -/
theorem cropW_wider (rw rh iw ih : ℚ) (hrw : 0 < rw) (hrh : 0 < rh)
    (hih : 0 < ih) (hgt : rw / rh < iw / ih) :
    (∃ k : ℤ, evalCropW rw rh iw ih = 2 * k) ∧
      evalCropW rw rh iw ih ≤ iw ∧ evalCropH rw rh iw ih = ih := by
  have hx : (0 : ℚ) ≤ ih * rw / rh / 2 := by positivity
  rw [evalCropW, if_pos hgt, truncQ, if_neg (not_lt.mpr hx)]
  refine ⟨⟨⌊ih * rw / rh / 2⌋, by ring⟩, ?_, ?_⟩
  · have h1 : ((⌊ih * rw / rh / 2⌋ : ℤ) : ℚ) ≤ ih * rw / rh / 2 := Int.floor_le _
    have h2 : ih * rw / rh < iw := by
      rw [div_lt_div_iff₀ hrh hih] at hgt
      rw [div_lt_iff₀ hrh]
      nlinarith
    linarith
  · rw [evalCropH, if_pos hgt]

/-- In the not-wider branch the computed crop height is an even integer
below `ih`, and the width is the full source width. -/
theorem cropH_taller (rw rh iw ih : ℚ) (hrw : 0 < rw) (hrh : 0 < rh)
    (hiw : 0 < iw) (hih : 0 < ih) (hle : ¬ (rw / rh < iw / ih)) :
    (∃ k : ℤ, evalCropH rw rh iw ih = 2 * k) ∧
      evalCropH rw rh iw ih ≤ ih ∧ evalCropW rw rh iw ih = iw := by
  have hx : (0 : ℚ) ≤ iw * rh / rw / 2 := by positivity
  rw [evalCropH, if_neg hle, truncQ, if_neg (not_lt.mpr hx)]
  refine ⟨⟨⌊iw * rh / rw / 2⌋, by ring⟩, ?_, ?_⟩
  · have h1 : ((⌊iw * rh / rw / 2⌋ : ℤ) : ℚ) ≤ iw * rh / rw / 2 := Int.floor_le _
    have h2 : iw * rh / rw ≤ ih := by
      have hle' : iw / ih ≤ rw / rh := not_lt.mp hle
      rw [div_le_div_iff₀ hih hrh] at hle'
      rw [div_le_iff₀ hrw]
      nlinarith
    linarith
  · rw [evalCropW, if_neg hle]

/-- C2 (amended): for every positive source frame and supported target
ratio, neither crop dimension exceeds the source frame; the dimension the
expression computes (width when the source is wider than the target,
height otherwise) is an even integer, while the other dimension equals the
full source dimension — so it is even only when the source dimension is. -/
theorem c2_crop_dims (rw rh iw ih : ℚ) (hmem : (rw, rh) ∈ ratioList)
    (hiw : 0 < iw) (hih : 0 < ih) :
    evalCropW rw rh iw ih ≤ iw ∧ evalCropH rw rh iw ih ≤ ih ∧
    (rw / rh < iw / ih →
      (∃ k : ℤ, evalCropW rw rh iw ih = 2 * k) ∧ evalCropH rw rh iw ih = ih) ∧
    (¬ (rw / rh < iw / ih) →
      (∃ k : ℤ, evalCropH rw rh iw ih = 2 * k) ∧ evalCropW rw rh iw ih = iw) := by
  have hpos : 0 < rw ∧ 0 < rh := by
    simp [ratioList, Prod.mk.injEq] at hmem
    rcases hmem with ⟨h1, h2⟩ | ⟨h1, h2⟩ | ⟨h1, h2⟩ | ⟨h1, h2⟩ <;>
      subst h1 <;> subst h2 <;> norm_num
  by_cases hgt : rw / rh < iw / ih
  · have hw := cropW_wider rw rh iw ih hpos.1 hpos.2 hih hgt
    exact ⟨hw.2.1, le_of_eq hw.2.2, fun _ => ⟨hw.1, hw.2.2⟩, fun hc => absurd hgt hc⟩
  · have hh := cropH_taller rw rh iw ih hpos.1 hpos.2 hiw hih hgt
    exact ⟨le_of_eq hh.2.2, hh.2.1, fun hc => absurd hc hgt, fun _ => ⟨hh.1, hh.2.2⟩⟩

/-- Witness for C2 at a 1920×1080 source cropped to 9:16. -/
theorem c2_crop_dims_witness :
    evalCropW 9 16 1920 1080 ≤ 1920 ∧ evalCropH 9 16 1920 1080 ≤ 1080 ∧
    (∃ k : ℤ, evalCropW 9 16 1920 1080 = 2 * k) := by
  have h := c2_crop_dims 9 16 1920 1080 (by simp [ratioList]) (by norm_num) (by norm_num)
  exact ⟨h.1, h.2.1, (h.2.2.1 (by norm_num)).1⟩

/-- Counterexample to C2 as stated: a 1920×1081 source is wider than 9:16,
so the crop keeps the full source height 1081, which is not an even
integer (the claim asserts both crop dimensions are always even). -/
theorem c2_crop_dims_counterexample :
    evalCropH 9 16 1920 1081 = 1081 ∧ ∀ k : ℤ, evalCropH 9 16 1920 1081 ≠ 2 * k := by
  have hgt : (9 : ℚ) / 16 < 1920 / 1081 := by norm_num
  have h : evalCropH 9 16 1920 1081 = 1081 := by rw [evalCropH, if_pos hgt]
  refine ⟨h, ?_⟩
  intro k hk
  rw [h] at hk
  have h2 : (1081 : ℤ) = 2 * k := by exact_mod_cast hk
  omega

/-- Every entry of the crop component is a crop node. -/
theorem mem_cropPart {e : Edits} {f : VFilter} (h : f ∈ cropPart e) :
    ∃ a b, f = VFilter.crop a b := by
  rcases he : e.aspectRatio with _ | ar
  · simp [cropPart, he] at h
  · simp only [cropPart, he] at h
    by_cases hc : ar = [] ∨ ar = chars "original"
    · rw [if_pos hc] at h
      simp at h
    · rw [if_neg hc, List.mem_singleton] at h
      exact ⟨_, _, h⟩

/-- Every entry of the color component is the `eq` node on the entries. -/
theorem mem_eqPart {e : Edits} {f : VFilter} (h : f ∈ eqPart e) :
    f = VFilter.eq (eqEntries e) := by
  rw [eqPart] at h
  by_cases hc : eqEntries e = []
  · rw [if_pos hc] at h
    simp at h
  · rw [if_neg hc, List.mem_singleton] at h
    exact h

/-- Every entry of the speed component is a setpts node. -/
theorem mem_setptsPart {e : Edits} {f : VFilter} (h : f ∈ setptsPart e) :
    ∃ q, f = VFilter.setpts q := by
  rcases hs : e.speed with _ | sp
  · simp [setptsPart, hs] at h
  · simp only [setptsPart, hs] at h
    by_cases hc : sp ≠ 0 ∧ sp ≠ 1
    · rw [if_pos hc, List.mem_singleton] at h
      exact ⟨_, h⟩
    · rw [if_neg hc] at h
      simp at h

/-- Every entry of the overlay component comes from one overlay, in order. -/
theorem mem_drawtextPart {e : Edits} {f : VFilter} (h : f ∈ drawtextPart e) :
    ∃ t ∈ e.textOverlays, f = drawtextOf t := by
  rw [drawtextPart] at h
  rcases List.mem_map.mp h with ⟨t, ht, rfl⟩
  exact ⟨t, ht, rfl⟩

/-- C3: when the source is wider than the target the crop keeps full
height and computes width `round_even(ih * rw/rh)`; otherwise it keeps
full width and computes height `round_even(iw * rh/rw)`; the offsets
center the crop; and for `aspectRatio = "original"` no crop filter is
emitted, for any edit spec. -/
theorem c3_crop_geometry :
    (∀ rw rh iw ih : ℚ, (rw, rh) ∈ ratioList → 0 < iw → 0 < ih →
      (rw / rh < iw / ih →
        evalCropW rw rh iw ih = evenRound (ih * (rw / rh)) ∧
          evalCropH rw rh iw ih = ih) ∧
      (¬ (rw / rh < iw / ih) →
        evalCropH rw rh iw ih = evenRound (iw * (rh / rw)) ∧
          evalCropW rw rh iw ih = iw) ∧
      evalCropX rw rh iw ih = (iw - evalCropW rw rh iw ih) / 2 ∧
      evalCropY rw rh iw ih = (ih - evalCropH rw rh iw ih) / 2) ∧
    (∀ e : Edits, e.aspectRatio = some (chars "original") →
      ∀ f ∈ buildFFmpegFilters e, isCropF f = false) := by
  constructor
  · intro rw rh iw ih hmem hiw hih
    have hpos : 0 < rw ∧ 0 < rh := by
      simp [ratioList, Prod.mk.injEq] at hmem
      rcases hmem with ⟨h1, h2⟩ | ⟨h1, h2⟩ | ⟨h1, h2⟩ | ⟨h1, h2⟩ <;>
        subst h1 <;> subst h2 <;> norm_num
    obtain ⟨hrw, hrh⟩ := hpos
    refine ⟨?_, ?_, rfl, rfl⟩
    · intro hgt
      have hx : (0 : ℚ) ≤ ih * rw / rh / 2 := by positivity
      rw [evalCropW, if_pos hgt, truncQ, if_neg (not_lt.mpr hx),
        evalCropH, if_pos hgt, evenRound]
      rw [show ih * (rw / rh) / 2 = ih * rw / rh / 2 from by ring]
      exact ⟨by ring, rfl⟩
    · intro hle
      have hx : (0 : ℚ) ≤ iw * rh / rw / 2 := by positivity
      rw [evalCropH, if_neg hle, truncQ, if_neg (not_lt.mpr hx),
        evalCropW, if_neg hle, evenRound]
      rw [show iw * (rh / rw) / 2 = iw * rh / rw / 2 from by ring]
      exact ⟨by ring, rfl⟩
  · intro e he f hf
    simp only [buildFFmpegFilters, cropPart, he] at hf
    rw [if_pos (Or.inr trivial), List.nil_append] at hf
    rcases List.mem_append.mp hf with hm | hm
    · rcases List.mem_append.mp hm with hm2 | hm2
      · rw [mem_eqPart hm2]
        rfl
      · rcases mem_setptsPart hm2 with ⟨q, rfl⟩
        rfl
    · rcases mem_drawtextPart hm with ⟨t, _, rfl⟩
      rfl

/-- Witness for C3 at a 1920×1080 source cropped to 9:16: the computed
width is `round_even(1080 · 9/16) = 606` and the height stays 1080. -/
theorem c3_crop_geometry_witness :
    evalCropW 9 16 1920 1080 = evenRound (1080 * ((9 : ℚ) / 16)) ∧
    evalCropH 9 16 1920 1080 = 1080 ∧
    evenRound (1080 * ((9 : ℚ) / 16)) = 606 := by
  have h := (c3_crop_geometry.1 9 16 1920 1080 (by simp [ratioList])
    (by norm_num) (by norm_num)).1 (by norm_num)
  refine ⟨h.1, h.2, ?_⟩
  rw [evenRound]
  norm_num

/-- C4: for a positive speed, `speed = 1` emits no speed filter on either
chain, while `speed ≠ 1` puts a `setpts` entry carrying `1/speed` on the
video chain and an audio tempo of `speed` clamped to `[0.5, 2]` on the
separate audio argument. -/
theorem c4_speed_compiler (e : Edits) (sp : ℚ) (hsp : e.speed = some sp)
    (hpos : 0 < sp) :
    (sp = 1 → (∀ f ∈ buildFFmpegFilters e, isSetpts f = false) ∧ afArg e = none) ∧
    (sp ≠ 1 → VFilter.setpts (1 / sp) ∈ buildFFmpegFilters e ∧
      afArg e = some (min (max sp (1 / 2)) 2)) := by
  constructor
  · rintro rfl
    constructor
    · intro f hf
      rcases List.mem_append.mp hf with h1 | h1
      · rcases List.mem_append.mp h1 with h2 | h2
        · rcases List.mem_append.mp h2 with h3 | h3
          · rcases mem_cropPart h3 with ⟨a, b, rfl⟩
            rfl
          · rw [mem_eqPart h3]
            rfl
        · simp [setptsPart, hsp] at h2
      · rcases mem_drawtextPart h1 with ⟨t, _, rfl⟩
        rfl
    · simp [afArg, effSpeed, hsp]
  · intro hne
    constructor
    · have hpart : setptsPart e = [VFilter.setpts (1 / sp)] := by
        simp [setptsPart, hsp, hpos.ne', hne]
      apply List.mem_append.mpr
      refine Or.inl (List.mem_append.mpr (Or.inr ?_))
      rw [hpart]
      exact List.mem_singleton.mpr rfl
    · simp [afArg, effSpeed, hsp, hpos.ne', hne]

/-- Witness for C4 at `speed = 3`: the video chain carries `setpts` with
factor `1/3` while the audio tempo is clamped to exactly 2. -/
theorem c4_speed_compiler_witness :
    VFilter.setpts (1 / 3) ∈
      buildFFmpegFilters ⟨none, none, none, none, some 3, [], none, none⟩ ∧
    afArg ⟨none, none, none, none, some 3, [], none, none⟩ = some 2 := by
  have h := (c4_speed_compiler ⟨none, none, none, none, some 3, [], none, none⟩ 3 rfl
    (by norm_num)).2 (by norm_num)
  refine ⟨h.1, ?_⟩
  rw [h.2]
  norm_num

/-- Shape of brightness-component entries. -/
theorem mem_brightnessEntry_shape {e : Edits} {x : EqE} (h : x ∈ brightnessEntry e) :
    ∃ w, x = EqE.brightness w := by
  rcases hb : e.brightness with _ | b
  · simp [brightnessEntry, hb] at h
  · simp only [brightnessEntry, hb] at h
    by_cases h0 : b ≠ 0
    · rw [if_pos h0, List.mem_singleton] at h
      exact ⟨b, h⟩
    · rw [if_neg h0] at h
      simp at h

/-- Shape of contrast-component entries. -/
theorem mem_contrastEntry_shape {e : Edits} {x : EqE} (h : x ∈ contrastEntry e) :
    ∃ w, x = EqE.contrast w := by
  rcases hb : e.contrast with _ | b
  · simp [contrastEntry, hb] at h
  · simp only [contrastEntry, hb] at h
    by_cases h0 : b ≠ 0
    · rw [if_pos h0, List.mem_singleton] at h
      exact ⟨b, h⟩
    · rw [if_neg h0] at h
      simp at h

/-- Shape of saturation-component entries. -/
theorem mem_saturationEntry_shape {e : Edits} {x : EqE} (h : x ∈ saturationEntry e) :
    ∃ w, x = EqE.saturation w := by
  rcases hb : e.saturation with _ | b
  · simp [saturationEntry, hb] at h
  · simp only [saturationEntry, hb] at h
    by_cases h0 : b ≠ 0
    · rw [if_pos h0, List.mem_singleton] at h
      exact ⟨b, h⟩
    · rw [if_neg h0] at h
      simp at h

/-- The brightness component holds exactly the nonzero present value. -/
theorem mem_brightnessEntry (e : Edits) (v : ℚ) :
    EqE.brightness v ∈ brightnessEntry e ↔ e.brightness = some v ∧ v ≠ 0 := by
  rcases hb : e.brightness with _ | b
  · simp [brightnessEntry, hb]
  · simp only [brightnessEntry, hb]
    by_cases h0 : b ≠ 0
    · rw [if_pos h0]
      simp only [List.mem_singleton, EqE.brightness.injEq, Option.some.injEq]
      constructor
      · rintro rfl
        exact ⟨rfl, h0⟩
      · rintro ⟨rfl, _⟩
        rfl
    · rw [if_neg h0]
      push_neg at h0
      subst h0
      simp only [List.not_mem_nil, false_iff, not_and, Option.some.injEq]
      rintro rfl
      simp
  
/-- The contrast component holds exactly the nonzero present value. -/
theorem mem_contrastEntry (e : Edits) (v : ℚ) :
    EqE.contrast v ∈ contrastEntry e ↔ e.contrast = some v ∧ v ≠ 0 := by
  rcases hb : e.contrast with _ | b
  · simp [contrastEntry, hb]
  · simp only [contrastEntry, hb]
    by_cases h0 : b ≠ 0
    · rw [if_pos h0]
      simp only [List.mem_singleton, EqE.contrast.injEq, Option.some.injEq]
      constructor
      · rintro rfl
        exact ⟨rfl, h0⟩
      · rintro ⟨rfl, _⟩
        rfl
    · rw [if_neg h0]
      push_neg at h0
      subst h0
      simp only [List.not_mem_nil, false_iff, not_and, Option.some.injEq]
      rintro rfl
      simp

/-- The saturation component holds exactly the nonzero present value. -/
theorem mem_saturationEntry (e : Edits) (v : ℚ) :
    EqE.saturation v ∈ saturationEntry e ↔ e.saturation = some v ∧ v ≠ 0 := by
  rcases hb : e.saturation with _ | b
  · simp [saturationEntry, hb]
  · simp only [saturationEntry, hb]
    by_cases h0 : b ≠ 0
    · rw [if_pos h0]
      simp only [List.mem_singleton, EqE.saturation.injEq, Option.some.injEq]
      constructor
      · rintro rfl
        exact ⟨rfl, h0⟩
      · rintro ⟨rfl, _⟩
        rfl
    · rw [if_neg h0]
      push_neg at h0
      subst h0
      simp only [List.not_mem_nil, false_iff, not_and, Option.some.injEq]
      rintro rfl
      simp

/-- C7: with brightness, contrast and saturation all zero no color filter
is emitted; otherwise the `eq` entries are exactly the nonzero present
dimensions, brightness interpolated raw and contrast/saturation rendered
as `(1 + delta).toFixed(4)`; a nonempty entry list is emitted as one `eq`
filter in the chain. -/
theorem c7_color_compiler (e : Edits) :
    (e.brightness = some 0 ∧ e.contrast = some 0 ∧ e.saturation = some 0 →
      eqPart e = [] ∧ ∀ f ∈ buildFFmpegFilters e, rankF f ≠ 1) ∧
    (∀ v, EqE.brightness v ∈ eqEntries e ↔ e.brightness = some v ∧ v ≠ 0) ∧
    (∀ v, EqE.contrast v ∈ eqEntries e ↔ e.contrast = some v ∧ v ≠ 0) ∧
    (∀ v, EqE.saturation v ∈ eqEntries e ↔ e.saturation = some v ∧ v ≠ 0) ∧
    (∀ v, serializeEq (EqE.brightness v) = chars "brightness=" ++ jsNumChars v) ∧
    (∀ v, serializeEq (EqE.contrast v) = chars "contrast=" ++ toFixedChars 4 (1 + v)) ∧
    (∀ v, serializeEq (EqE.saturation v) = chars "saturation=" ++ toFixedChars 4 (1 + v)) ∧
    (eqEntries e ≠ [] → VFilter.eq (eqEntries e) ∈ buildFFmpegFilters e) := by
  have hentries : ∀ v : ℚ,
      (EqE.brightness v ∈ eqEntries e ↔ e.brightness = some v ∧ v ≠ 0) ∧
      (EqE.contrast v ∈ eqEntries e ↔ e.contrast = some v ∧ v ≠ 0) ∧
      (EqE.saturation v ∈ eqEntries e ↔ e.saturation = some v ∧ v ≠ 0) := by
    intro v
    refine ⟨Iff.intro (fun h => ?_) (fun h => ?_),
      Iff.intro (fun h => ?_) (fun h => ?_), Iff.intro (fun h => ?_) (fun h => ?_)⟩
    · rcases List.mem_append.mp h with h1 | h1
      · rcases List.mem_append.mp h1 with h2 | h2
        · exact (mem_brightnessEntry e v).mp h2
        · rcases mem_contrastEntry_shape h2 with ⟨w, hw⟩
          cases hw
      · rcases mem_saturationEntry_shape h1 with ⟨w, hw⟩
        cases hw
    · exact List.mem_append.mpr (Or.inl (List.mem_append.mpr
        (Or.inl ((mem_brightnessEntry e v).mpr h))))
    · rcases List.mem_append.mp h with h1 | h1
      · rcases List.mem_append.mp h1 with h2 | h2
        · rcases mem_brightnessEntry_shape h2 with ⟨w, hw⟩
          cases hw
        · exact (mem_contrastEntry e v).mp h2
      · rcases mem_saturationEntry_shape h1 with ⟨w, hw⟩
        cases hw
    · exact List.mem_append.mpr (Or.inl (List.mem_append.mpr
        (Or.inr ((mem_contrastEntry e v).mpr h))))
    · rcases List.mem_append.mp h with h1 | h1
      · rcases List.mem_append.mp h1 with h2 | h2
        · rcases mem_brightnessEntry_shape h2 with ⟨w, hw⟩
          cases hw
        · rcases mem_contrastEntry_shape h2 with ⟨w, hw⟩
          cases hw
      · exact (mem_saturationEntry e v).mp h1
    · exact List.mem_append.mpr (Or.inr ((mem_saturationEntry e v).mpr h))
  refine ⟨?_, fun v => (hentries v).1, fun v => (hentries v).2.1,
    fun v => (hentries v).2.2, fun v => rfl, fun v => rfl, fun v => rfl, ?_⟩
  · rintro ⟨hb, hc, hs⟩
    have hE : eqEntries e = [] := by
      rw [eqEntries, brightnessEntry, contrastEntry, saturationEntry, hb, hc, hs]
      simp
    have hP : eqPart e = [] := by
      rw [eqPart, if_pos hE]
    refine ⟨hP, ?_⟩
    intro f hf
    rcases List.mem_append.mp hf with h1 | h1
    · rcases List.mem_append.mp h1 with h2 | h2
      · rcases List.mem_append.mp h2 with h3 | h3
        · rcases mem_cropPart h3 with ⟨a, b, rfl⟩
          simp [rankF]
        · rw [hP] at h3
          simp at h3
      · rcases mem_setptsPart h2 with ⟨q, rfl⟩
        simp [rankF]
    · rcases mem_drawtextPart h1 with ⟨t, _, rfl⟩
      simp [drawtextOf, rankF]
  · intro hne
    refine List.mem_append.mpr (Or.inl (List.mem_append.mpr (Or.inl
      (List.mem_append.mpr (Or.inr ?_)))))
    rw [eqPart, if_neg hne]
    exact List.mem_singleton.mpr rfl

/-- Witness for C7: an all-zero spec emits no color filter; a spec with
only `contrast = 0.1` emits exactly the contrast dimension. -/
theorem c7_color_compiler_witness :
    eqPart ⟨none, some 0, some 0, some 0, none, [], none, none⟩ = [] ∧
    EqE.contrast (1 / 10) ∈
      eqEntries ⟨none, none, some (1 / 10), none, none, [], none, none⟩ := by
  refine ⟨((c7_color_compiler _).1 ⟨rfl, rfl, rfl⟩).1, ?_⟩
  exact ((c7_color_compiler _).2.2.1 (1 / 10)).mpr ⟨rfl, by norm_num⟩

/-- Natural numbers render through the JavaScript printer as their plain
decimal digits. -/
theorem jsNumChars_natCast (n : ℕ) : jsNumChars ((n : ℕ) : ℚ) = natChars n := by
  rw [jsNumChars, if_neg (not_lt.mpr (by positivity))]
  rw [jsNumPos]
  have h1 : (⌊((n : ℕ) : ℚ)⌋ : ℤ) = (n : ℤ) := Int.floor_natCast n
  simp only [h1, Int.toNat_natCast]
  rw [if_pos (by ring)]

/-- C10: the default position expressions are substituted only for a null
coordinate — an explicit `x = 0` or `y = 0` renders as `w*0` or `h*0` —
whereas a fontSize of 0 (or a missing one) falls back to 36 and a missing
color falls back to white `0xFFFFFF`. -/
theorem c10_overlay_defaults (t : TextOverlay) :
    (∀ v, t.x = some v → ovX t = chars "w*" ++ jsNumChars v) ∧
    (t.x = none → ovX t = chars "(w-text_w)/2") ∧
    (∀ v, t.y = some v → ovY t = chars "h*" ++ jsNumChars v) ∧
    (t.y = none → ovY t = chars "h*0.85") ∧
    (t.x = some 0 → ovX t = chars "w*0") ∧
    (t.y = some 0 → ovY t = chars "h*0") ∧
    (t.fontSize = some 0 → ovSize t = 36) ∧
    (t.fontSize = none → ovSize t = 36) ∧
    (t.color = none → ovColor t = chars "0xFFFFFF") ∧
    drawtextOf t = VFilter.drawtext (escapeText t.text) (ovSize t) (ovColor t)
      (ovX t) (ovY t) (ovEnable t) := by
  have hz : jsNumChars (0 : ℚ) = chars "0" := by
    rw [show (0 : ℚ) = ((0 : ℕ) : ℚ) from by norm_num, jsNumChars_natCast]
    decide
  refine ⟨fun v hv => by simp [ovX, hv], fun hv => by simp [ovX, hv],
    fun v hv => by simp [ovY, hv], fun hv => by simp [ovY, hv],
    fun hv => ?_, fun hv => ?_,
    fun hv => by simp [ovSize, hv], fun hv => by simp [ovSize, hv],
    fun hv => by simp [ovColor, hv]; decide, rfl⟩
  · simp only [ovX, hv]
    rw [hz]
    decide
  · simp only [ovY, hv]
    rw [hz]
    decide

/-- Witness for C10: an overlay with explicit zero coordinates, zero font
size and no color. -/
theorem c10_overlay_defaults_witness :
    ovX ⟨chars "a", none, some 0, some 0, some 0, none, none⟩ = chars "w*0" ∧
    ovY ⟨chars "a", none, some 0, some 0, some 0, none, none⟩ = chars "h*0" ∧
    ovSize ⟨chars "a", none, some 0, some 0, some 0, none, none⟩ = 36 ∧
    ovColor ⟨chars "a", none, some 0, some 0, some 0, none, none⟩ = chars "0xFFFFFF" := by
  have h := c10_overlay_defaults ⟨chars "a", none, some 0, some 0, some 0, none, none⟩
  exact ⟨h.2.2.2.2.1 rfl, h.2.2.2.2.2.1 rfl, h.2.2.2.2.2.2.1 rfl, h.2.2.2.2.2.2.2.2.1 rfl⟩

/-- Crop entries rank 0. -/
theorem rank_cropPart {e : Edits} {f : VFilter} (h : f ∈ cropPart e) : rankF f = 0 := by
  rcases mem_cropPart h with ⟨a, b, rfl⟩
  rfl

/-- Color entries rank 1. -/
theorem rank_eqPart {e : Edits} {f : VFilter} (h : f ∈ eqPart e) : rankF f = 1 := by
  rw [mem_eqPart h]
  rfl

/-- Speed entries rank 2. -/
theorem rank_setptsPart {e : Edits} {f : VFilter} (h : f ∈ setptsPart e) : rankF f = 2 := by
  rcases mem_setptsPart h with ⟨q, rfl⟩
  rfl

/-- Overlay entries rank 3. -/
theorem rank_drawtextPart {e : Edits} {f : VFilter} (h : f ∈ drawtextPart e) : rankF f = 3 := by
  rcases mem_drawtextPart h with ⟨t, _, rfl⟩
  rfl

/-- Lists of at most one element are vacuously sorted. -/
theorem pairwise_of_len_le_one {α : Type} {R : α → α → Prop} {l : List α}
    (h : l.length ≤ 1) : l.Pairwise R := by
  match l with
  | [] => exact List.Pairwise.nil
  | [x] => exact List.pairwise_singleton R x
  | x :: y :: t => simp at h

/-- The crop component has at most one entry. -/
theorem cropPart_len (e : Edits) : (cropPart e).length ≤ 1 := by
  rcases he : e.aspectRatio with _ | ar
  · simp [cropPart, he]
  · simp only [cropPart, he]
    split_ifs <;> simp

/-- The color component has at most one entry. -/
theorem eqPart_len (e : Edits) : (eqPart e).length ≤ 1 := by
  rw [eqPart]
  split_ifs <;> simp

/-- The speed component has at most one entry. -/
theorem setptsPart_len (e : Edits) : (setptsPart e).length ≤ 1 := by
  rcases hs : e.speed with _ | sp
  · simp [setptsPart, hs]
  · simp only [setptsPart, hs]
    split_ifs <;> simp

/-- The overlay component is rank-sorted (all entries rank 3). -/
theorem pairwise_drawtextPart (e : Edits) :
    (drawtextPart e).Pairwise (fun a b => rankF a ≤ rankF b) := by
  rw [drawtextPart]
  induction e.textOverlays with
  | nil => exact List.Pairwise.nil
  | cons t ts ih =>
    refine List.Pairwise.cons ?_ ih
    intro b hb
    rcases List.mem_map.mp hb with ⟨u, _, rfl⟩
    exact le_refl _

/-- C5: the visual chain is assembled in the fixed kind order crop, color,
speed, overlays; the drawtext entries are exactly the overlays compiled in
authoring order; no entry of the visual chain is an audio `atempo` node;
and when the chain is empty no `-vf` argument appears in the command. -/
theorem c5_filter_chain_assembly (e : Edits) (src out : List Char) (c : Clip) :
    (buildFFmpegFilters e).Pairwise (fun a b => rankF a ≤ rankF b) ∧
    (buildFFmpegFilters e).filter isDrawtext = e.textOverlays.map drawtextOf ∧
    ((buildFFmpegFilters e).all fun f =>
      !((chars "atempo").isPrefixOf (serializeVF f))) = true ∧
    (buildFFmpegFilters e = [] →
      ((exportCmdPieces src out c e).any fun p =>
        (chars "-vf").isPrefixOf p) = false) := by
  refine ⟨?_, ?_, ?_, ?_⟩
  · rw [buildFFmpegFilters, List.pairwise_append]
    refine ⟨?_, pairwise_drawtextPart e, ?_⟩
    · rw [List.pairwise_append]
      refine ⟨?_, pairwise_of_len_le_one (setptsPart_len e), ?_⟩
      · rw [List.pairwise_append]
        refine ⟨pairwise_of_len_le_one (cropPart_len e),
          pairwise_of_len_le_one (eqPart_len e), ?_⟩
        intro a ha b hb
        rw [rank_cropPart ha, rank_eqPart hb]
        norm_num
      · intro a ha b hb
        rcases List.mem_append.mp ha with h1 | h1
        · rw [rank_cropPart h1, rank_setptsPart hb]
          norm_num
        · rw [rank_eqPart h1, rank_setptsPart hb]
          norm_num
    · intro a ha b hb
      rw [rank_drawtextPart hb]
      rcases List.mem_append.mp ha with h1 | h1
      · rcases List.mem_append.mp h1 with h2 | h2
        · rw [rank_cropPart h2]
          norm_num
        · rw [rank_eqPart h2]
          norm_num
      · rw [rank_setptsPart h1]
        norm_num
  · rw [buildFFmpegFilters, List.filter_append, List.filter_append, List.filter_append]
    have hA : (cropPart e).filter isDrawtext = [] := by
      rw [List.filter_eq_nil_iff]
      intro a ha
      rcases mem_cropPart ha with ⟨x, y, rfl⟩
      simp [isDrawtext]
    have hB : (eqPart e).filter isDrawtext = [] := by
      rw [List.filter_eq_nil_iff]
      intro a ha
      rw [mem_eqPart ha]
      simp [isDrawtext]
    have hC : (setptsPart e).filter isDrawtext = [] := by
      rw [List.filter_eq_nil_iff]
      intro a ha
      rcases mem_setptsPart ha with ⟨q, rfl⟩
      simp [isDrawtext]
    have hD : (drawtextPart e).filter isDrawtext = drawtextPart e := by
      rw [List.filter_eq_self]
      intro a ha
      rcases mem_drawtextPart ha with ⟨t, _, rfl⟩
      rfl
    rw [hA, hB, hC, hD, drawtextPart]
    simp
  · rw [List.all_eq_true]
    intro f _
    cases f <;> rfl
  · intro hfil
    rw [List.any_eq_false]
    intro p hp
    have hmem := (List.mem_filter.mp hp).1
    have hne := (List.mem_filter.mp hp).2
    simp only [exportCmdArr, vfPiece, if_pos hfil, List.mem_cons,
      List.not_mem_nil, or_false] at hmem
    rcases hmem with rfl | rfl | rfl | rfl | rfl | rfl | rfl | rfl | rfl | rfl
    · intro hc
      exact absurd hc (by rw [show (chars "ffmpeg -y") = 'f' :: chars "fmpeg -y" from rfl]; decide)
    · simp [List.isPrefixOf, chars]
    · simp [List.isPrefixOf, chars]
    · simp [List.isPrefixOf, chars]
    · simp at hne
    · rcases haf : afArg e with _ | v <;> simp [afPiece, haf, List.isPrefixOf, chars]
    · simp [List.isPrefixOf, chars]
    · simp [List.isPrefixOf, chars]
    · simp [List.isPrefixOf, chars]
    · simp [quoteWrap, List.isPrefixOf, chars]

/-- Witness for C5: with an empty edit spec nothing emits a `-vf`
argument. -/
theorem c5_filter_chain_assembly_witness :
    ((exportCmdPieces (chars "v.mp4") (chars "o.mp4") ⟨0, 1⟩ emptyEdits).any fun p =>
      (chars "-vf").isPrefixOf p) = false :=
  (c5_filter_chain_assembly emptyEdits (chars "v.mp4") (chars "o.mp4") ⟨0, 1⟩).2.2.2 rfl

/-- The drawtext escaping leaves double quotes — the shell's string
delimiter — completely untouched. -/
theorem count_quote_escapeText (t : List Char) :
    (escapeText t).count '"' = t.count '"' := by
  induction t with
  | nil => rfl
  | cons x xs ih =>
    rw [escapeText_cons, List.count_append, ih]
    by_cases h1 : x = '\\'
    · subst h1
      simp [escChar, List.count_cons]
    · by_cases h2 : x = '\''
      · subst h2
        simp [escChar, List.count_cons]
      · by_cases h3 : x = ':'
        · subst h3
          simp [escChar, List.count_cons]
        · simp [escChar, h1, h2, h3, List.count_cons, Nat.add_comm]

/-- C8 (amended): the export command is a single space-joined string (fed
to a shell-interpreting exec), not an argument vector; untrusted overlay
text receives only the drawtext escaping, which does not neutralise the
shell-significant double quote — its count passes through unchanged into
the shell string. -/
theorem c8_shell_string_amended (src out : List Char) (c : Clip) (e : Edits)
    (t : List Char) :
    exportCmd src out c e =
      List.intercalate [' ']
        ((exportCmdArr src out c e).filter (fun p => !p.isEmpty)) ∧
    (escapeText t).count '"' = t.count '"' :=
  ⟨rfl, count_quote_escapeText t⟩

set_option maxRecDepth 8192 in
/-- Counterexample to C8 as stated: with the single overlay text `"` the
assembled command contains seven double quotes — an odd number, so the
shell-quoting of the command line is unbalanced and the untrusted text has
escaped its intended quoting context (no argument-vector passing and no
shell escaping protects it). -/
theorem c8_shell_string_counterexample :
    (exportCmd (chars "in.mp4") (chars "out.mp4") ⟨0, 1⟩
        ⟨none, none, none, none, none, [⟨['"'], none, none, none, none, none, none⟩],
          none, none⟩).count '"' = 7 ∧
    ¬((exportCmd (chars "in.mp4") (chars "out.mp4") ⟨0, 1⟩
        ⟨none, none, none, none, none, [⟨['"'], none, none, none, none, none, none⟩],
          none, none⟩).count '"') % 2 = 0 := by
  have hs0 : secondsToFFmpeg 0 = chars "00:00:00.000" := by
    rw [show (0 : ℚ) = ((0 : ℕ) : ℚ) / 1000 from by norm_num, secondsToFFmpeg_ms]
    decide
  have hs1 : secondsToFFmpeg 1 = chars "00:00:01.000" := by
    rw [show (1 : ℚ) = ((1000 : ℕ) : ℚ) / 1000 from by norm_num, secondsToFFmpeg_ms]
    decide
  have hj36 : jsNumChars (36 : ℚ) = chars "36" := by
    rw [show (36 : ℚ) = ((36 : ℕ) : ℚ) from by norm_num, jsNumChars_natCast]
    decide
  have hdt : drawtextOf ⟨['"'], none, none, none, none, none, none⟩ =
      VFilter.drawtext ['"'] 36 (chars "0xFFFFFF") (chars "(w-text_w)/2")
        (chars "h*0.85") none := by decide
  have hserial : serializeVF (drawtextOf ⟨['"'], none, none, none, none, none, none⟩) =
      chars "drawtext=text='\"':fontsize=36:fontcolor=0xFFFFFF:x=(w-text_w)/2:y=h*0.85" := by
    rw [hdt, serializeVF, hj36]
    decide
  have hbuild : buildFFmpegFilters
      ⟨none, none, none, none, none, [⟨['"'], none, none, none, none, none, none⟩],
        none, none⟩ = [drawtextOf ⟨['"'], none, none, none, none, none, none⟩] := rfl
  have hvf : vfPiece
      ⟨none, none, none, none, none, [⟨['"'], none, none, none, none, none, none⟩],
        none, none⟩ =
      chars "-vf \"drawtext=text='\"':fontsize=36:fontcolor=0xFFFFFF:x=(w-text_w)/2:y=h*0.85\"" := by
    rw [vfPiece, if_neg (by rw [hbuild]; exact fun hc => List.noConfusion hc), hbuild]
    simp only [List.map_cons, List.map_nil, List.intercalate]
    rw [hserial]
    decide
  have haf : afPiece
      ⟨none, none, none, none, none, [⟨['"'], none, none, none, none, none, none⟩],
        none, none⟩ = [] := rfl
  have hcmd : exportCmd (chars "in.mp4") (chars "out.mp4") ⟨0, 1⟩
      ⟨none, none, none, none, none, [⟨['"'], none, none, none, none, none, none⟩],
        none, none⟩ =
      chars "ffmpeg -y -ss 00:00:00.000 -i \"in.mp4\" -t 00:00:01.000 -vf \"drawtext=text='\"':fontsize=36:fontcolor=0xFFFFFF:x=(w-text_w)/2:y=h*0.85\" -c:v libx264 -preset fast -crf 22 -c:a aac -b:a 128k -movflags +faststart \"out.mp4\"" := by
    simp only [exportCmd, exportCmdPieces, exportCmdArr, sub_zero, hs0, hs1, hvf, haf]
    decide
  rw [hcmd]
  constructor
  · decide
  · decide

/-- C9 (amended): the export route performs no validation of the edit
specification at all — whenever the body parameters are present and the
source file resolves, the request proceeds to command construction and
spawn for any `edits` value whatsoever (out-of-range numbers, malformed
ratios, empty overlay texts included); the only pre-spawn failures are
missing parameters and an unresolved source file. -/
theorem c9_no_editspec_validation (existing : List (List Char))
    (outName src : List Char) (c : Clip) (e : Edits)
    (hsrc : src ≠ []) (hex : basenameOf src ∈ existing) :
    exportClip existing outName (some src) (some c) (some e) =
      Except.ok (exportCmd (basenameOf src) outName c e) := by
  simp only [exportClip]
  rw [if_neg hsrc, if_pos hex]
  rfl

/-- Witness for C9: a spec with the out-of-range `brightness = 5` — the
spec's range is `[-1, 1]` — sails through to the spawned command. -/
theorem c9_no_editspec_validation_witness :
    exportClip [chars "v.mp4"] (chars "o.mp4") (some (chars "v.mp4")) (some ⟨0, 1⟩)
        (some ⟨none, some 5, none, none, none, [], none, none⟩) =
      Except.ok (exportCmd (chars "v.mp4") (chars "o.mp4") ⟨0, 1⟩
        ⟨none, some 5, none, none, none, [], none, none⟩) := by
  have h := c9_no_editspec_validation [chars "v.mp4"] (chars "o.mp4") (chars "v.mp4")
    ⟨0, 1⟩ ⟨none, some 5, none, none, none, [], none, none⟩ (by decide) (by decide)
  rw [show basenameOf (chars "v.mp4") = chars "v.mp4" from by decide] at h
  exact h

/-- Counterexample to C9 as stated: the request with `brightness = 5`
succeeds (no `InvalidEditSpec` error exists anywhere in the route) and the
out-of-range value flows straight into the emitted color filter. -/
theorem c9_no_editspec_validation_counterexample :
    (exportClip [chars "v.mp4"] (chars "o.mp4") (some (chars "v.mp4")) (some ⟨0, 1⟩)
        (some ⟨none, some 5, none, none, none, [], none, none⟩)).isOk = true ∧
    VFilter.eq [EqE.brightness 5] ∈
      buildFFmpegFilters ⟨none, some 5, none, none, none, [], none, none⟩ := by
  constructor
  · rfl
  · decide
